import Mathlib

/-!
Shallow embedding of the bounded-concurrency fetch dispatcher in
`src/0203JS/0204fetch5APIs.js`.

The repository code has two parts relevant here:

* `fetchWithRetry(url, retries = 3, delay = 1000)` — invokes `mockFetch(url)`;
  on an error whose message includes the substring `"50"` (a server-side,
  transient error) and with `retries > 0`, it waits `delay` ms and recurses
  with `retries - 1` and `delay * 2`; otherwise it throws
  `new Error("❌ Final Failure for " + url + ": " + error.message)`.

* `fetchWithConcurrency(urls, limit)` — for each url in input order it starts
  `fetchWithRetry(url)` (a promise `p` whose `then`/`catch` handler pushes a
  `fulfilled`/`rejected` record to `results` and whose `finally` splices `p`
  out of the `executing` array); it pushes `p` onto `executing`, and if
  `executing.length >= limit` it awaits `Promise.race(executing)`; after the
  loop it awaits `Promise.all(executing)` and returns `results`.

The embedding models the underlying operation (`mockFetch`) as an oracle
giving the result of each invocation, and models time with ghost natural
numbers: each target has an oracle-given duration from start to settlement of
its whole retry pipeline.  `Promise.race` on a non-empty set is "advance to
the earliest settlement and run that promise's handlers" (ties broken towards
the promise started first, matching timer-callback order); `Promise.race` on
an empty array never settles, which the model makes observable as `none`
(deadlock).  `Promise.all` of the remaining promises processes each remaining
settlement in time order.
-/

/-- Does the character list `pat` occur contiguously inside `l`, starting at
position 0?  Building block for the JS `String.prototype.includes` test. -/
def listStartsWith : List Char → List Char → Bool
  | _, [] => true
  | [], _ :: _ => false
  | a :: as, b :: bs => a = b && listStartsWith as bs

/-- Does the character list `pat` occur contiguously anywhere inside `l`? -/
def listIncludes : List Char → List Char → Bool
  | [], pat => listStartsWith [] pat
  | a :: as, pat => listStartsWith (a :: as) pat || listIncludes as pat

/-- JS `s.includes(pat)`: substring containment on strings. -/
def strIncludes (s pat : String) : Bool := listIncludes s.data pat.data

/-- The error-classification used by `fetchWithRetry`:
`error.message.includes("50")` marks a server-side (transient) error. -/
def isServerError (msg : String) : Bool := strIncludes msg "50"

/-- Result of one invocation of the underlying operation (`mockFetch`):
either data or a thrown error message. -/
inductive FetchResult where
  | success (data : String)
  | failure (msg : String)
deriving DecidableEq, Repr

/-- An entry of the `results` array of `fetchWithConcurrency`:
`{status: "fulfilled", value}` or `{status: "rejected", reason}`. -/
inductive Outcome where
  | fulfilled (value : String)
  | rejected (reason : String)
deriving DecidableEq, Repr

/-- The wrapped error message thrown by `fetchWithRetry` on final failure:
`"❌ Final Failure for " + url + ": " + message`. -/
def finalFailureMsg (url msg : String) : String :=
  "❌ Final Failure for " ++ url ++ ": " ++ msg

/-- Instrumented result of a `fetchWithRetry(url, retries, delay)` call:
how many times the underlying operation was invoked, the backoff waits
performed between attempts (in order), and the settled result. -/
structure RetryTrace where
  invocations : Nat
  waits : List Nat
  result : Except String String
deriving Repr

/-- Embedding of `fetchWithRetry`.  `op j` is the oracle result of the `j`-th
invocation of the underlying operation for this target; `k` is the index of
the invocation performed by this call (the top-level call passes `k = 0`).
On failure, the source retries only when `retries > 0` and the message
includes `"50"`; it then recurses with `retries - 1` and `delay * 2`.
Otherwise it throws the wrapped final-failure error. -/
def fetchWithRetry (op : Nat → FetchResult) (url : String) :
    Nat → Nat → Nat → RetryTrace
  | 0, _, k =>
    match op k with
    | .success data => ⟨1, [], .ok data⟩
    | .failure msg => ⟨1, [], .error (finalFailureMsg url msg)⟩
  | r + 1, delay, k =>
    match op k with
    | .success data => ⟨1, [], .ok data⟩
    | .failure msg =>
      if isServerError msg then
        let t := fetchWithRetry op url r (delay * 2) (k + 1)
        ⟨t.invocations + 1, delay :: t.waits, t.result⟩
      else ⟨1, [], .error (finalFailureMsg url msg)⟩

theorem listStartsWith_append (l m : List Char) : listStartsWith (l ++ m) l = true := by
  induction l with
  | nil => cases m <;> rfl
  | cons a as ih => simp [listStartsWith, ih]

theorem listIncludes_of_startsWith (l pat : List Char) (h : listStartsWith l pat = true) :
    listIncludes l pat = true := by
  cases l with
  | nil => simpa [listIncludes] using h
  | cons a as => simp [listIncludes, h]

theorem listIncludes_append_left (l m pat : List Char) (h : listIncludes m pat = true) :
    listIncludes (l ++ m) pat = true := by
  induction l with
  | nil => simpa using h
  | cons a as ih => simp [listIncludes, ih]

/-- If `s` decomposes as `x ++ pat ++ y` at the character level then
`strIncludes s pat` holds. -/
theorem strIncludes_of_parts (s pat : String) (x y : List Char)
    (h : s.data = x ++ (pat.data ++ y)) : strIncludes s pat = true := by
  unfold strIncludes
  rw [h]
  exact listIncludes_append_left _ _ _
    (listIncludes_of_startsWith _ _ (listStartsWith_append _ _))

theorem finalFailureMsg_includes_url (url msg : String) :
    strIncludes (finalFailureMsg url msg) url = true := by
  apply strIncludes_of_parts _ _ ("❌ Final Failure for ".data) ((": " ++ msg).data)
  simp [finalFailureMsg, String.data_append]

theorem finalFailureMsg_includes_msg (url msg : String) :
    strIncludes (finalFailureMsg url msg) msg = true := by
  apply strIncludes_of_parts _ _ (("❌ Final Failure for " ++ url ++ ": ").data) []
  simp [finalFailureMsg, String.data_append]

theorem finalFailureMsg_includes_marker (url msg : String) :
    strIncludes (finalFailureMsg url msg) "Final Failure" = true := by
  apply strIncludes_of_parts _ _ ("❌ ".data) ((" for " ++ url ++ ": " ++ msg).data)
  have : ("❌ Final Failure for ").data
      = "❌ ".data ++ ("Final Failure".data ++ " for ".data) := by decide
  simp [finalFailureMsg, String.data_append, this]

theorem finalFailureMsg_ne (url msg : String) : finalFailureMsg url msg ≠ msg := by
  intro h
  have hl := congrArg String.length h
  have h1 : ("❌ Final Failure for ").length = 20 := by decide
  have h2 : (": ").length = 2 := by decide
  simp [finalFailureMsg, String.length_append, h1, h2] at hl

/-- On an operation that fails with a transient (server-class) error at every
invocation, `fetchWithRetry` uses the full budget: `retries + 1` invocations,
backoff waits `delay * 2 ^ 0, delay * 2 ^ 1, …` and a final wrapped error
carrying the message of the last attempt. -/
theorem fetchWithRetry_allTransient (m : Nat → String) (url : String)
    (hs : ∀ j, isServerError (m j) = true) :
    ∀ R d k, fetchWithRetry (fun j => .failure (m j)) url R d k =
      ⟨R + 1, (List.range R).map (fun j => d * 2 ^ j),
        .error (finalFailureMsg url (m (k + R)))⟩ := by
  intro R
  induction R with
  | zero =>
    intro d k
    simp [fetchWithRetry]
  | succ r ih =>
    intro d k
    rw [fetchWithRetry]
    simp only [hs k, if_true]
    rw [ih (d * 2) (k + 1)]
    have hw : d :: (List.range r).map (fun j => d * 2 * 2 ^ j)
        = (List.range (r + 1)).map (fun j => d * 2 ^ j) := by
      rw [List.range_succ_eq_map, List.map_cons, List.map_map]
      refine congrArg₂ _ (by simp) ?_
      refine List.map_congr_left ?_
      intro j hj
      simp [Function.comp, pow_succ]
      ring
    have hk : k + 1 + r = k + (r + 1) := by omega
    simp [hw, hk]

/-- Every error that escapes `fetchWithRetry` is the wrapped final-failure
message for this target's url: the only `throw` in the source is
`new Error("❌ Final Failure for " + url + ": " + error.message)`. -/
theorem fetchWithRetry_error_shape (op : Nat → FetchResult) (url : String) :
    ∀ R d k e, (fetchWithRetry op url R d k).result = .error e →
      ∃ msg, e = finalFailureMsg url msg := by
  intro R
  induction R with
  | zero =>
    intro d k e h
    rw [fetchWithRetry] at h
    cases hop : op k with
    | success data => rw [hop] at h; simp at h
    | failure msg =>
      rw [hop] at h
      simp at h
      exact ⟨msg, h.symm⟩
  | succ r ih =>
    intro d k e h
    rw [fetchWithRetry] at h
    cases hop : op k with
    | success data => rw [hop] at h; simp at h
    | failure msg =>
      rw [hop] at h
      by_cases hse : isServerError msg
      · simp only [hse, if_true] at h
        exact ih (d * 2) (k + 1) e h
      · simp only [hse, if_false, Bool.false_eq_true] at h
        simp at h
        exact ⟨msg, h.symm⟩

/-- The `j`-th backoff wait performed by `fetchWithRetry` (counting from 0)
is `delay * 2 ^ j`, for every operation oracle: each recursive call doubles
the delay. -/
theorem fetchWithRetry_waits_getD (op : Nat → FetchResult) (url : String) :
    ∀ R d k j, j < (fetchWithRetry op url R d k).waits.length →
      (fetchWithRetry op url R d k).waits.getD j 0 = d * 2 ^ j := by
  intro R
  induction R with
  | zero =>
    intro d k j h
    rw [fetchWithRetry] at h
    cases hop : op k with
    | success data => rw [hop] at h; simp at h
    | failure msg => rw [hop] at h; simp at h
  | succ r ih =>
    intro d k j h
    rw [fetchWithRetry] at h ⊢
    cases hop : op k with
    | success data => rw [hop] at h; simp at h
    | failure msg =>
      rw [hop] at h
      by_cases hse : isServerError msg
      · simp only [hse, if_true] at h ⊢
        cases j with
        | zero => simp
        | succ j' =>
          simp only [List.getD_cons_succ]
          have h' : j' < (fetchWithRetry op url r (d * 2) (k + 1)).waits.length := by
            simpa using h
          rw [ih (d * 2) (k + 1) j' h']
          rw [pow_succ]
          ring
      · simp only [hse, if_false, Bool.false_eq_true] at h
        simp at h

/-- When the first invocation fails with a non-server (permanent) error,
`fetchWithRetry` performs no backoff wait and settles immediately with the
wrapped error, whatever the remaining retry budget. -/
theorem fetchWithRetry_permanent (op : Nat → FetchResult) (url msg : String)
    (R d k : Nat) (hop : op k = .failure msg) (hse : isServerError msg = false) :
    fetchWithRetry op url R d k = ⟨1, [], .error (finalFailureMsg url msg)⟩ := by
  cases R with
  | zero => rw [fetchWithRetry, hop]
  | succ r => rw [fetchWithRetry, hop]; simp [hse]

/-- The outcome recorded for target `i` by `fetchWithConcurrency`: the source
calls `fetchWithRetry(url)` with its default arguments `retries = 3`,
`delay = 1000`; the `then` handler records `{status: "fulfilled", value}` and
the `catch` handler records `{status: "rejected", reason: err.message}`.
`op i` is the invocation oracle of target `i`'s underlying operation. -/
def outcomeOf (op : Nat → Nat → FetchResult) (urls : List String) (i : Nat) : Outcome :=
  match (fetchWithRetry (op i) (urls.getD i "") 3 1000 0).result with
  | .ok v => .fulfilled v
  | .error e => .rejected e

/-- A member of the `executing` array: the index of the target whose wrapped
promise it is, and the ghost time at which that promise settles. -/
structure ExecEntry where
  idx : Nat
  settle : Nat
deriving DecidableEq, Repr

/-- Instrumented state of a `fetchWithConcurrency` run.  `trace` is the
`results` array together with the ghost index of the target that produced
each entry; `starts` records `(index, ghost start time)` for each admitted
target; `occupancies` records `executing.length` immediately after each push
(the instants at which the number of in-flight operations peaks). -/
structure RunState where
  time : Nat
  executing : List ExecEntry
  trace : List (Nat × Outcome)
  starts : List (Nat × Nat)
  occupancies : List Nat
deriving DecidableEq, Repr

/-- Select the promise `Promise.race` settles on: the first entry of the
`executing` array with the earliest settle time.  Returns it together with
the array with that entry spliced out; `none` on an empty array (a race that
never settles). -/
def removeMin : List ExecEntry → Option (ExecEntry × List ExecEntry)
  | [] => none
  | e :: rest =>
    match removeMin rest with
    | none => some (e, [])
    | some (m, rest') =>
      if e.settle ≤ m.settle then some (e, rest) else some (m, e :: rest')

/-- Process one settlement: the earliest-settling member of `executing` runs
its `then`/`catch` handler (appending its record to `results`) and its
`finally` handler (splicing it out of `executing`).  `none` when `executing`
is empty, i.e. the awaited `Promise.race([])` never settles. -/
def settleStep (outcome : Nat → Outcome) (s : RunState) : Option RunState :=
  match removeMin s.executing with
  | none => none
  | some (e, rest) =>
    some { s with time := max s.time e.settle, executing := rest,
                  trace := s.trace ++ [(e.idx, outcome e.idx)] }

/-- Start target `i`'s wrapped promise: record its start time, push it onto
`executing`, and record the occupancy snapshot `executing.length` right after
the push. -/
def pushTarget (dur : Nat → Nat) (i : Nat) (s : RunState) : RunState :=
  { s with executing := s.executing ++ [⟨i, s.time + dur i⟩],
           starts := s.starts ++ [(i, s.time)],
           occupancies := s.occupancies ++ [s.executing.length + 1] }

/-- One iteration of the admission loop body: start the target, and if
`executing.length >= limit` await one settlement
(`await Promise.race(executing)`). -/
def admitOne (outcome : Nat → Outcome) (dur : Nat → Nat) (limit : Nat)
    (i : Nat) (s : RunState) : Option RunState :=
  if limit ≤ (pushTarget dur i s).executing.length then
    settleStep outcome (pushTarget dur i s)
  else some (pushTarget dur i s)

/-- The admission loop `for (const url of urls) { … }` over the (ghost)
indices of the targets, in input order. -/
def admitAll (outcome : Nat → Outcome) (dur : Nat → Nat) (limit : Nat) :
    List Nat → RunState → Option RunState
  | [], s => some s
  | i :: rest, s =>
    match admitOne outcome dur limit i s with
    | none => none
    | some s2 => admitAll outcome dur limit rest s2

/-- The drain `await Promise.all(executing)`: process every remaining
settlement in time order.  Called with `fuel = executing.length`. -/
def drainAll (outcome : Nat → Outcome) : Nat → RunState → RunState
  | 0, s => s
  | fuel + 1, s =>
    match settleStep outcome s with
    | none => s
    | some s' => drainAll outcome fuel s'

/-- The state at entry of `fetchWithConcurrency`: time zero, empty
`executing` and `results`. -/
def initState : RunState := ⟨0, [], [], [], []⟩

/-- Instrumented embedding of `fetchWithConcurrency(urls, limit)`.  `op i` is
the invocation oracle of target `i`'s operation and `dur i` the ghost
duration from start to settlement of target `i`'s whole retry pipeline.
`none` models the run hanging forever on a `Promise.race([])`. -/
def fetchWithConcurrencyTraced (op : Nat → Nat → FetchResult) (dur : Nat → Nat)
    (urls : List String) (limit : Nat) : Option RunState :=
  match admitAll (outcomeOf op urls) dur limit (List.range urls.length) initState with
  | none => none
  | some s => some (drainAll (outcomeOf op urls) s.executing.length s)

/-- The value `fetchWithConcurrency(urls, limit)` resolves with: the
`results` array, in settlement order. -/
def fetchWithConcurrency (op : Nat → Nat → FetchResult) (dur : Nat → Nat)
    (urls : List String) (limit : Nat) : Option (List Outcome) :=
  (fetchWithConcurrencyTraced op dur urls limit).map (fun s => s.trace.map Prod.snd)

/-- The ghost multiset of targets currently accounted for: those already
recorded in `results` plus those still in `executing`. -/
def seen (s : RunState) : List Nat :=
  s.trace.map Prod.fst ++ s.executing.map ExecEntry.idx

/-- All `results` entries recorded so far are the recorded target's own
outcome. -/
def entriesOK (outcome : Nat → Outcome) (s : RunState) : Prop :=
  ∀ p ∈ s.trace, p.2 = outcome p.1

theorem removeMin_isSome_of_ne_nil (l : List ExecEntry) (h : l ≠ []) :
    ∃ p, removeMin l = some p := by
  cases l with
  | nil => exact absurd rfl h
  | cons e rest =>
    rw [removeMin]
    cases removeMin rest with
    | none => exact ⟨(e, []), rfl⟩
    | some p =>
      by_cases hle : e.settle ≤ p.1.settle
      · exact ⟨(e, rest), by simp [hle]⟩
      · exact ⟨(p.1, e :: p.2), by simp [hle]⟩

theorem removeMin_perm (l : List ExecEntry) (e : ExecEntry) (rest : List ExecEntry)
    (h : removeMin l = some (e, rest)) : l.Perm (e :: rest) := by
  induction l generalizing e rest with
  | nil => simp [removeMin] at h
  | cons a t ih =>
    rw [removeMin] at h
    cases hm : removeMin t with
    | none =>
      rw [hm] at h
      have ht : t = [] := by
        cases t with
        | nil => rfl
        | cons b u =>
          obtain ⟨p, hp⟩ := removeMin_isSome_of_ne_nil (b :: u) (by simp)
          rw [hp] at hm
          cases hm
      subst ht
      simp at h
      obtain ⟨rfl, rfl⟩ := h
      exact List.Perm.refl _
    | some p =>
      obtain ⟨m, rest'⟩ := p
      rw [hm] at h
      by_cases hle : a.settle ≤ m.settle
      · simp [hle] at h
        obtain ⟨rfl, rfl⟩ := h
        exact List.Perm.refl _
      · simp [hle] at h
        obtain ⟨rfl, rfl⟩ := h
        exact ((ih m rest' hm).cons a).trans (List.Perm.swap m a rest')

/-- Characterization of a successful `settleStep`. -/
theorem settleStep_eq (outcome : Nat → Outcome) (s s' : RunState)
    (h : settleStep outcome s = some s') :
    ∃ e rest, removeMin s.executing = some (e, rest) ∧
      s' = { s with time := max s.time e.settle, executing := rest,
                    trace := s.trace ++ [(e.idx, outcome e.idx)] } := by
  unfold settleStep at h
  cases hm : removeMin s.executing with
  | none => rw [hm] at h; cases h
  | some p =>
    obtain ⟨e, rest⟩ := p
    rw [hm] at h
    exact ⟨e, rest, rfl, (Option.some.inj h).symm⟩

theorem settleStep_isSome_of_ne_nil (outcome : Nat → Outcome) (s : RunState)
    (h : s.executing ≠ []) : ∃ s', settleStep outcome s = some s' := by
  obtain ⟨⟨e, rest⟩, hp⟩ := removeMin_isSome_of_ne_nil s.executing h
  exact ⟨_, by rw [settleStep, hp]⟩

theorem settleStep_seen (outcome : Nat → Outcome) (s s' : RunState)
    (h : settleStep outcome s = some s') : (seen s').Perm (seen s) := by
  obtain ⟨e, rest, hm, rfl⟩ := settleStep_eq outcome s s' h
  have hperm := (removeMin_perm _ _ _ hm).map ExecEntry.idx
  unfold seen
  simp only [List.map_append, List.map_cons, List.map_nil, List.append_assoc,
    List.singleton_append, List.nil_append]
  exact List.Perm.append_left _ hperm.symm

theorem settleStep_length (outcome : Nat → Outcome) (s s' : RunState)
    (h : settleStep outcome s = some s') :
    s'.executing.length + 1 = s.executing.length := by
  obtain ⟨e, rest, hm, rfl⟩ := settleStep_eq outcome s s' h
  have := (removeMin_perm _ _ _ hm).length_eq
  simpa using this.symm

theorem settleStep_frame (outcome : Nat → Outcome) (s s' : RunState)
    (h : settleStep outcome s = some s') :
    s'.starts = s.starts ∧ s'.occupancies = s.occupancies := by
  obtain ⟨e, rest, hm, rfl⟩ := settleStep_eq outcome s s' h
  exact ⟨rfl, rfl⟩

theorem settleStep_entriesOK (outcome : Nat → Outcome) (s s' : RunState)
    (h : settleStep outcome s = some s') (hok : entriesOK outcome s) :
    entriesOK outcome s' := by
  obtain ⟨e, rest, hm, rfl⟩ := settleStep_eq outcome s s' h
  intro p hp
  simp at hp
  rcases hp with hp | hp
  · exact hok p hp
  · subst hp; rfl

theorem pushTarget_seen (dur : Nat → Nat) (i : Nat) (s : RunState) :
    seen (pushTarget dur i s) = seen s ++ [i] := by
  simp [seen, pushTarget]

theorem admitOne_isSome (outcome : Nat → Outcome) (dur : Nat → Nat) (limit i : Nat)
    (s : RunState) : ∃ s', admitOne outcome dur limit i s = some s' := by
  unfold admitOne
  by_cases h : limit ≤ (pushTarget dur i s).executing.length
  · rw [if_pos h]
    exact settleStep_isSome_of_ne_nil outcome _ (by simp [pushTarget])
  · rw [if_neg h]
    exact ⟨_, rfl⟩

theorem admitOne_seen (outcome : Nat → Outcome) (dur : Nat → Nat) (limit i : Nat)
    (s s' : RunState) (h : admitOne outcome dur limit i s = some s') :
    (seen s').Perm (seen s ++ [i]) := by
  unfold admitOne at h
  by_cases hif : limit ≤ (pushTarget dur i s).executing.length
  · rw [if_pos hif] at h
    exact (pushTarget_seen dur i s) ▸ settleStep_seen _ _ _ h
  · rw [if_neg hif] at h
    obtain rfl : pushTarget dur i s = s' := Option.some.inj h
    rw [pushTarget_seen]

theorem admitOne_starts (outcome : Nat → Outcome) (dur : Nat → Nat) (limit i : Nat)
    (s s' : RunState) (h : admitOne outcome dur limit i s = some s') :
    s'.starts = s.starts ++ [(i, s.time)] := by
  unfold admitOne at h
  by_cases hif : limit ≤ (pushTarget dur i s).executing.length
  · rw [if_pos hif] at h
    rw [(settleStep_frame _ _ _ h).1]
    rfl
  · rw [if_neg hif] at h
    obtain rfl : pushTarget dur i s = s' := Option.some.inj h
    rfl

theorem admitOne_entriesOK (outcome : Nat → Outcome) (dur : Nat → Nat) (limit i : Nat)
    (s s' : RunState) (h : admitOne outcome dur limit i s = some s')
    (hok : entriesOK outcome s) : entriesOK outcome s' := by
  unfold admitOne at h
  have hpush : entriesOK outcome (pushTarget dur i s) := hok
  by_cases hif : limit ≤ (pushTarget dur i s).executing.length
  · rw [if_pos hif] at h
    exact settleStep_entriesOK _ _ _ h hpush
  · rw [if_neg hif] at h
    obtain rfl : pushTarget dur i s = s' := Option.some.inj h
    exact hpush

theorem admitOne_occ (outcome : Nat → Outcome) (dur : Nat → Nat) (limit i : Nat)
    (s s' : RunState) (h : admitOne outcome dur limit i s = some s')
    (hlen : s.executing.length < limit) (hocc : ∀ v ∈ s.occupancies, v ≤ limit) :
    s'.executing.length < limit ∧ ∀ v ∈ s'.occupancies, v ≤ limit := by
  unfold admitOne at h
  have hplen : (pushTarget dur i s).executing.length = s.executing.length + 1 := by
    simp [pushTarget]
  have hpocc : ∀ v ∈ (pushTarget dur i s).occupancies, v ≤ limit := by
    intro v hv
    simp [pushTarget] at hv
    rcases hv with hv | hv
    · exact hocc v hv
    · omega
  by_cases hif : limit ≤ (pushTarget dur i s).executing.length
  · rw [if_pos hif] at h
    have hl := settleStep_length _ _ _ h
    have hfr := (settleStep_frame _ _ _ h).2
    constructor
    · omega
    · rw [hfr]; exact hpocc
  · rw [if_neg hif] at h
    obtain rfl : pushTarget dur i s = s' := Option.some.inj h
    exact ⟨by omega, hpocc⟩

theorem admitAll_isSome (outcome : Nat → Outcome) (dur : Nat → Nat) (limit : Nat) :
    ∀ todo s, ∃ s', admitAll outcome dur limit todo s = some s' := by
  intro todo
  induction todo with
  | nil => intro s; exact ⟨s, rfl⟩
  | cons i rest ih =>
    intro s
    obtain ⟨s1, h1⟩ := admitOne_isSome outcome dur limit i s
    obtain ⟨s', h'⟩ := ih s1
    exact ⟨s', by rw [admitAll, h1]; exact h'⟩

theorem admitAll_seen (outcome : Nat → Outcome) (dur : Nat → Nat) (limit : Nat) :
    ∀ todo s s', admitAll outcome dur limit todo s = some s' →
      (seen s').Perm (seen s ++ todo) := by
  intro todo
  induction todo with
  | nil =>
    intro s s' h
    obtain rfl : s = s' := Option.some.inj h
    simp
  | cons i rest ih =>
    intro s s' h
    rw [admitAll] at h
    cases ha : admitOne outcome dur limit i s with
    | none => rw [ha] at h; cases h
    | some s1 =>
      rw [ha] at h
      have h2 := ih s1 s' h
      have h3 := (admitOne_seen outcome dur limit i s s1 ha).append_right rest
      have h4 := h2.trans h3
      simpa using h4

theorem admitAll_entriesOK (outcome : Nat → Outcome) (dur : Nat → Nat) (limit : Nat) :
    ∀ todo s s', admitAll outcome dur limit todo s = some s' →
      entriesOK outcome s → entriesOK outcome s' := by
  intro todo
  induction todo with
  | nil =>
    intro s s' h hok
    obtain rfl : s = s' := Option.some.inj h
    exact hok
  | cons i rest ih =>
    intro s s' h hok
    rw [admitAll] at h
    cases ha : admitOne outcome dur limit i s with
    | none => rw [ha] at h; cases h
    | some s1 =>
      rw [ha] at h
      exact ih s1 s' h (admitOne_entriesOK outcome dur limit i s s1 ha hok)

theorem admitAll_starts_fst (outcome : Nat → Outcome) (dur : Nat → Nat) (limit : Nat) :
    ∀ todo s s', admitAll outcome dur limit todo s = some s' →
      s'.starts.map Prod.fst = s.starts.map Prod.fst ++ todo := by
  intro todo
  induction todo with
  | nil =>
    intro s s' h
    obtain rfl : s = s' := Option.some.inj h
    simp
  | cons i rest ih =>
    intro s s' h
    rw [admitAll] at h
    cases ha : admitOne outcome dur limit i s with
    | none => rw [ha] at h; cases h
    | some s1 =>
      rw [ha] at h
      rw [ih s1 s' h, admitOne_starts outcome dur limit i s s1 ha]
      simp

theorem admitAll_occ (outcome : Nat → Outcome) (dur : Nat → Nat) (limit : Nat) :
    ∀ todo s s', admitAll outcome dur limit todo s = some s' →
      s.executing.length < limit → (∀ v ∈ s.occupancies, v ≤ limit) →
      s'.executing.length < limit ∧ ∀ v ∈ s'.occupancies, v ≤ limit := by
  intro todo
  induction todo with
  | nil =>
    intro s s' h hlen hocc
    obtain rfl : s = s' := Option.some.inj h
    exact ⟨hlen, hocc⟩
  | cons i rest ih =>
    intro s s' h hlen hocc
    rw [admitAll] at h
    cases ha : admitOne outcome dur limit i s with
    | none => rw [ha] at h; cases h
    | some s1 =>
      rw [ha] at h
      obtain ⟨hl1, ho1⟩ := admitOne_occ outcome dur limit i s s1 ha hlen hocc
      exact ih s1 s' h hl1 ho1

theorem drainAll_spec (outcome : Nat → Outcome) :
    ∀ fuel s, s.executing.length = fuel →
      (drainAll outcome fuel s).executing = [] ∧
      (seen (drainAll outcome fuel s)).Perm (seen s) ∧
      (drainAll outcome fuel s).starts = s.starts ∧
      (drainAll outcome fuel s).occupancies = s.occupancies ∧
      (entriesOK outcome s → entriesOK outcome (drainAll outcome fuel s)) := by
  intro fuel
  induction fuel with
  | zero =>
    intro s hs
    rw [drainAll]
    exact ⟨List.length_eq_zero.mp hs, List.Perm.refl _, rfl, rfl, fun hok => hok⟩
  | succ fuel ih =>
    intro s hs
    rw [drainAll]
    have hne : s.executing ≠ [] := by
      intro hnil
      rw [hnil] at hs
      simp at hs
    obtain ⟨s', hstep⟩ := settleStep_isSome_of_ne_nil outcome s hne
    rw [hstep]
    have hlen : s'.executing.length = fuel := by
      have := settleStep_length _ _ _ hstep
      omega
    obtain ⟨h1, h2, h3, h4, h5⟩ := ih s' hlen
    refine ⟨h1, h2.trans (settleStep_seen _ _ _ hstep), ?_, ?_, ?_⟩
    · rw [h3, (settleStep_frame _ _ _ hstep).1]
    · rw [h4, (settleStep_frame _ _ _ hstep).2]
    · exact fun hok => h5 (settleStep_entriesOK _ _ _ hstep hok)

/-- Full-run helper: `fetchWithConcurrency` always resolves, its `executing`
array drains to empty, the recorded targets are exactly `0 … N - 1` (each
exactly once), every record is its target's outcome, and the targets are
started in input order. -/
theorem traced_spec (op : Nat → Nat → FetchResult) (dur : Nat → Nat)
    (urls : List String) (limit : Nat) :
    ∃ s', fetchWithConcurrencyTraced op dur urls limit = some s' ∧
      s'.executing = [] ∧
      (s'.trace.map Prod.fst).Perm (List.range urls.length) ∧
      entriesOK (outcomeOf op urls) s' ∧
      s'.starts.map Prod.fst = List.range urls.length := by
  obtain ⟨sa, ha⟩ :=
    admitAll_isSome (outcomeOf op urls) dur limit (List.range urls.length) initState
  obtain ⟨h1, h2, h3, h4, h5⟩ := drainAll_spec (outcomeOf op urls) sa.executing.length sa rfl
  refine ⟨drainAll (outcomeOf op urls) sa.executing.length sa, ?_, h1, ?_, ?_, ?_⟩
  · unfold fetchWithConcurrencyTraced
    rw [ha]
  · have hseen := h2.trans (admitAll_seen (outcomeOf op urls) dur limit _ _ _ ha)
    have hinit : seen initState = [] := rfl
    rw [hinit] at hseen
    simp only [List.nil_append] at hseen
    unfold seen at hseen
    rw [h1] at hseen
    simpa using hseen
  · apply h5
    apply admitAll_entriesOK (outcomeOf op urls) dur limit _ _ _ ha
    intro p hp
    simp [initState] at hp
  · rw [h3]
    have := admitAll_starts_fst (outcomeOf op urls) dur limit _ _ _ ha
    simpa [initState] using this

/-- Occupancy helper: with a positive limit, every occupancy snapshot of a
full run is at most `limit`. -/
theorem traced_occ (op : Nat → Nat → FetchResult) (dur : Nat → Nat)
    (urls : List String) (limit : Nat) (hpos : 0 < limit) :
    ∃ s', fetchWithConcurrencyTraced op dur urls limit = some s' ∧
      ∀ v ∈ s'.occupancies, v ≤ limit := by
  obtain ⟨sa, ha⟩ :=
    admitAll_isSome (outcomeOf op urls) dur limit (List.range urls.length) initState
  obtain ⟨_, _, _, h4, _⟩ := drainAll_spec (outcomeOf op urls) sa.executing.length sa rfl
  obtain ⟨_, hocc⟩ := admitAll_occ (outcomeOf op urls) dur limit _ _ _ ha
    (by simpa [initState] using hpos) (by simp [initState])
  refine ⟨drainAll (outcomeOf op urls) sa.executing.length sa, ?_, ?_⟩
  · unfold fetchWithConcurrencyTraced
    rw [ha]
  · rw [h4]
    exact hocc

/-- With `limit = 0` the capacity check `executing.length >= limit` is true at
every iteration, so each admission is immediately followed by a race on the
singleton `executing` array: the loop waits for the promise it just started,
and the run degenerates to strictly sequential execution. -/
theorem admitAll_zero (outcome : Nat → Outcome) (dur : Nat → Nat) :
    ∀ todo s, s.executing = [] →
      ∃ s', admitAll outcome dur 0 todo s = some s' ∧ s'.executing = [] ∧
        s'.trace = s.trace ++ todo.map (fun i => (i, outcome i)) ∧
        s'.occupancies = s.occupancies ++ List.replicate todo.length 1 ∧
        s'.starts.map Prod.fst = s.starts.map Prod.fst ++ todo := by
  intro todo
  induction todo with
  | nil =>
    intro s hexec
    exact ⟨s, rfl, hexec, by simp, by simp, by simp⟩
  | cons i rest ih =>
    intro s hexec
    have hone : admitOne outcome dur 0 i s = some
        { time := s.time + dur i, executing := [],
          trace := s.trace ++ [(i, outcome i)],
          starts := s.starts ++ [(i, s.time)],
          occupancies := s.occupancies ++ [1] } := by
      simp [admitOne, pushTarget, settleStep, removeMin, hexec]
    obtain ⟨s', h', he', ht', ho', hs'⟩ := ih
      { time := s.time + dur i, executing := [],
        trace := s.trace ++ [(i, outcome i)],
        starts := s.starts ++ [(i, s.time)],
        occupancies := s.occupancies ++ [1] } rfl
    refine ⟨s', by rw [admitAll, hone]; exact h', he', ?_, ?_, ?_⟩
    · rw [ht']
      simp
    · rw [ho']
      simp [List.replicate_succ]
    · rw [hs']
      simp

theorem outcomeOf_rejected (op : Nat → Nat → FetchResult) (urls : List String) (i : Nat)
    (r : String) (h : outcomeOf op urls i = .rejected r) :
    ∃ m, r = finalFailureMsg (urls.getD i "") m := by
  unfold outcomeOf at h
  cases hres : (fetchWithRetry (op i) (urls.getD i "") 3 1000 0).result with
  | ok v => rw [hres] at h; simp at h
  | error e =>
    rw [hres] at h
    have her : e = r := by
      injection h
    obtain ⟨m, hm⟩ := fetchWithRetry_error_shape (op i) (urls.getD i "") 3 1000 0 e hres
    exact ⟨m, by rw [← her, hm]⟩

/-- Claim C3: a target whose operation raises a transient (server-class)
failure on every attempt is invoked exactly `maxRetries + 1` times by
`fetchWithRetry` (i.e. retried exactly `maxRetries` times — `waits.length`
counts the backoff waits, one per retry), then settles rejected; the rejected
reason is the final-failure wrapper of the last underlying error — it carries
the `Final Failure` marker and differs from the raw underlying error, and for
a server-class underlying message this wrapper can only be produced with the
retry budget exhausted (per `fetchWithRetry`, a server-class error is
rethrown wrapped only when `retries = 0`). -/
theorem claim_C3_retry_exhaustion (m : Nat → String) (url : String) (R d : Nat)
    (hs : ∀ j, isServerError (m j) = true) :
    (fetchWithRetry (fun j => .failure (m j)) url R d 0).invocations = R + 1 ∧
    (fetchWithRetry (fun j => .failure (m j)) url R d 0).waits.length = R ∧
    (fetchWithRetry (fun j => .failure (m j)) url R d 0).result
      = .error (finalFailureMsg url (m R)) ∧
    finalFailureMsg url (m R) ≠ m R ∧
    strIncludes (finalFailureMsg url (m R)) "Final Failure" = true ∧
    strIncludes (finalFailureMsg url (m R)) (m R) = true := by
  have h := fetchWithRetry_allTransient m url hs R d 0
  rw [Nat.zero_add] at h
  rw [h]
  exact ⟨rfl, by simp, rfl, finalFailureMsg_ne url (m R),
    finalFailureMsg_includes_marker url (m R), finalFailureMsg_includes_msg url (m R)⟩

theorem isServerError_503 : isServerError "503 Service Unavailable" = true := by decide

/-- Witness for C3 at the concrete always-503 operation with the default
budget `maxRetries = 3`, `baseDelay = 1000`: four invocations, three waits,
rejected with the wrapped reason. -/
theorem claim_C3_witness :
    (fetchWithRetry (fun j => .failure ((fun _ => "503 Service Unavailable") j))
        "API-1" 3 1000 0).invocations = 3 + 1 ∧
    (fetchWithRetry (fun j => .failure ((fun _ => "503 Service Unavailable") j))
        "API-1" 3 1000 0).waits.length = 3 ∧
    (fetchWithRetry (fun j => .failure ((fun _ => "503 Service Unavailable") j))
        "API-1" 3 1000 0).result
      = .error (finalFailureMsg "API-1" ((fun _ => "503 Service Unavailable") 3)) ∧
    finalFailureMsg "API-1" ((fun _ => "503 Service Unavailable") 3)
      ≠ (fun _ : Nat => "503 Service Unavailable") 3 ∧
    strIncludes (finalFailureMsg "API-1" ((fun _ => "503 Service Unavailable") 3))
      "Final Failure" = true ∧
    strIncludes (finalFailureMsg "API-1" ((fun _ => "503 Service Unavailable") 3))
      ((fun _ => "503 Service Unavailable") 3) = true :=
  claim_C3_retry_exhaustion (fun _ => "503 Service Unavailable") "API-1" 3 1000
    (fun _ => isServerError_503)

/-- Claim C4: a target whose operation raises a permanent (non-server-class)
failure settles rejected after exactly one invocation with no backoff wait
(no retries consumed), and the rejected reason wraps the original failure
with the final-failure marker and the target identifier. -/
theorem claim_C4_permanent_single_invocation (op : Nat → FetchResult) (url msg : String)
    (R d : Nat) (hop : op 0 = .failure msg) (hperm : isServerError msg = false) :
    fetchWithRetry op url R d 0 = ⟨1, [], .error (finalFailureMsg url msg)⟩ ∧
    strIncludes (finalFailureMsg url msg) url = true ∧
    strIncludes (finalFailureMsg url msg) msg = true ∧
    strIncludes (finalFailureMsg url msg) "Final Failure" = true :=
  ⟨fetchWithRetry_permanent op url msg R d 0 hop hperm,
    finalFailureMsg_includes_url url msg,
    finalFailureMsg_includes_msg url msg,
    finalFailureMsg_includes_marker url msg⟩

/-- Witness for C4 at a concrete always-404 operation with the default
budget. -/
theorem claim_C4_witness :
    (fun _ : Nat => FetchResult.failure "404 Not Found") 0
        = .failure "404 Not Found" ∧
    isServerError "404 Not Found" = false ∧
    (fetchWithRetry (fun _ => .failure "404 Not Found") "API-2" 3 1000 0
        = ⟨1, [], .error (finalFailureMsg "API-2" "404 Not Found")⟩ ∧
      strIncludes (finalFailureMsg "API-2" "404 Not Found") "API-2" = true ∧
      strIncludes (finalFailureMsg "API-2" "404 Not Found") "404 Not Found" = true ∧
      strIncludes (finalFailureMsg "API-2" "404 Not Found") "Final Failure" = true) :=
  ⟨rfl, by decide,
    claim_C4_permanent_single_invocation (fun _ => .failure "404 Not Found")
      "API-2" "404 Not Found" 3 1000 rfl (by decide)⟩

/-- Claim C5: the backoff policy is the pure function
`delay(attemptIndex, baseDelay) = baseDelay * 2 ^ attemptIndex`: for every
operation oracle, the `j`-th backoff wait of `fetchWithRetry` (0-indexed, `d`
the base delay passed in) equals `d * 2 ^ j`, and successive waits of the
same target strictly double, with no upper cap. -/
theorem claim_C5_backoff_doubling (op : Nat → FetchResult) (url : String)
    (R d k j : Nat) (h : j < (fetchWithRetry op url R d k).waits.length) :
    (fetchWithRetry op url R d k).waits.getD j 0 = d * 2 ^ j ∧
    (j + 1 < (fetchWithRetry op url R d k).waits.length →
      (fetchWithRetry op url R d k).waits.getD (j + 1) 0
        = 2 * (fetchWithRetry op url R d k).waits.getD j 0) := by
  constructor
  · exact fetchWithRetry_waits_getD op url R d k j h
  · intro h2
    rw [fetchWithRetry_waits_getD op url R d k (j + 1) h2,
      fetchWithRetry_waits_getD op url R d k j h, pow_succ]
    ring

/-- Witness for C5 at an operation failing transiently twice then
succeeding: the waits are `[1000, 2000]`, and the second doubles the
first. -/
theorem claim_C5_witness :
    0 < (fetchWithRetry
        (fun k => if k < 2 then .failure "503 Service Unavailable" else .success "ok")
        "API-3" 3 1000 0).waits.length ∧
    ((fetchWithRetry
        (fun k => if k < 2 then .failure "503 Service Unavailable" else .success "ok")
        "API-3" 3 1000 0).waits.getD 0 0 = 1000 * 2 ^ 0 ∧
      (0 + 1 < (fetchWithRetry
          (fun k => if k < 2 then .failure "503 Service Unavailable" else .success "ok")
          "API-3" 3 1000 0).waits.length →
        (fetchWithRetry
          (fun k => if k < 2 then .failure "503 Service Unavailable" else .success "ok")
          "API-3" 3 1000 0).waits.getD (0 + 1) 0
          = 2 * (fetchWithRetry
              (fun k => if k < 2 then .failure "503 Service Unavailable" else .success "ok")
              "API-3" 3 1000 0).waits.getD 0 0)) :=
  ⟨by decide,
    claim_C5_backoff_doubling
      (fun k => if k < 2 then .failure "503 Service Unavailable" else .success "ok")
      "API-3" 3 1000 0 0 (by decide)⟩

/-- The concrete scenario of the spec: five targets `[A, B, C, D, E]` run
with `concurrencyLimit = 2`.  Target `C` fails permanently (404); the others
succeed.  The ghost durations (start-to-settlement latencies of the wrapped
retry pipelines) are `5, 3, 4, 6, 2`. -/
def scenarioUrls : List String := ["A", "B", "C", "D", "E"]

def scenarioOp : Nat → Nat → FetchResult := fun i _ =>
  if i = 2 then .failure "404 Not Found"
  else .success ("data-" ++ scenarioUrls.getD i "")

def scenarioDur : Nat → Nat := fun i => [5, 3, 4, 6, 2].getD i 1

/-- Claim C1: for every target list and `concurrencyLimit = L` with
`1 ≤ L ≤ N`, the number of operations started but not yet settled never
exceeds `L`.  The `occupancies` field records `executing.length` immediately
after each start — the only instants at which the count grows (it shrinks
only at settlements) — so bounding every recorded snapshot by `L` bounds the
count at every instant of the run. -/
theorem claim_C1_concurrency_bound (op : Nat → Nat → FetchResult) (dur : Nat → Nat)
    (urls : List String) (limit : Nat) (h1 : 1 ≤ limit) (_h2 : limit ≤ urls.length) :
    ∃ s', fetchWithConcurrencyTraced op dur urls limit = some s' ∧
      ∀ v ∈ s'.occupancies, v ≤ limit :=
  traced_occ op dur urls limit h1

/-- Witness for C1: the concrete five-target scenario with limit 2. -/
theorem claim_C1_witness :
    1 ≤ 2 ∧ 2 ≤ scenarioUrls.length ∧
    (∃ s', fetchWithConcurrencyTraced scenarioOp scenarioDur scenarioUrls 2 = some s' ∧
      ∀ v ∈ s'.occupancies, v ≤ 2) :=
  ⟨by decide, by decide,
    claim_C1_concurrency_bound scenarioOp scenarioDur scenarioUrls 2 (by decide) (by decide)⟩

/-- Claim C2: for every valid invocation on `N` targets, the resolved
`results` array contains exactly `N` entries — the recorded (ghost) target
indices are a permutation of `0 … N - 1`, so there is exactly one entry per
target, none missing, none duplicated — and each entry is its own target's
outcome, regardless of how many targets fail. -/
theorem claim_C2_resultset_complete (op : Nat → Nat → FetchResult) (dur : Nat → Nat)
    (urls : List String) (limit : Nat) :
    ∃ s', fetchWithConcurrencyTraced op dur urls limit = some s' ∧
      fetchWithConcurrency op dur urls limit = some (s'.trace.map Prod.snd) ∧
      (s'.trace.map Prod.fst).Perm (List.range urls.length) ∧
      (∀ p ∈ s'.trace, p.2 = outcomeOf op urls p.1) ∧
      s'.trace.length = urls.length := by
  obtain ⟨s', hsome, _, hperm, hok, _⟩ := traced_spec op dur urls limit
  refine ⟨s', hsome, ?_, hperm, hok, ?_⟩
  · unfold fetchWithConcurrency
    rw [hsome]
    rfl
  · have := hperm.length_eq
    simpa using this

/-- Witness for C2 at the concrete five-target scenario. -/
theorem claim_C2_witness :
    ∃ s', fetchWithConcurrencyTraced scenarioOp scenarioDur scenarioUrls 2 = some s' ∧
      fetchWithConcurrency scenarioOp scenarioDur scenarioUrls 2
        = some (s'.trace.map Prod.snd) ∧
      (s'.trace.map Prod.fst).Perm (List.range scenarioUrls.length) ∧
      (∀ p ∈ s'.trace, p.2 = outcomeOf scenarioOp scenarioUrls p.1) ∧
      s'.trace.length = scenarioUrls.length :=
  claim_C2_resultset_complete scenarioOp scenarioDur scenarioUrls 2

/-- Claim C7: once inputs are valid, `fetchWithConcurrency` always resolves
(the embedding returns `some`, never the `none` that models a hang, and the
source has no rejection path: every per-target error is caught by the
`catch` handler).  No target's failure aborts any other target: every
target's own outcome — fulfilled or rejected — appears in the resolved
`results` array, and failures surface only as rejected entries there. -/
theorem claim_C7_always_resolves (op : Nat → Nat → FetchResult) (dur : Nat → Nat)
    (urls : List String) (limit : Nat) :
    ∃ s', fetchWithConcurrencyTraced op dur urls limit = some s' ∧
      fetchWithConcurrency op dur urls limit = some (s'.trace.map Prod.snd) ∧
      ∀ i, i < urls.length → (i, outcomeOf op urls i) ∈ s'.trace := by
  obtain ⟨s', hsome, _, hperm, hok, _⟩ := traced_spec op dur urls limit
  refine ⟨s', hsome, ?_, ?_⟩
  · unfold fetchWithConcurrency
    rw [hsome]
    rfl
  · intro i hi
    have hmem : i ∈ s'.trace.map Prod.fst := hperm.mem_iff.mpr (List.mem_range.mpr hi)
    obtain ⟨p, hp, hfst⟩ := List.mem_map.mp hmem
    have hsnd := hok p hp
    have hpe : (i, outcomeOf op urls i) = p := by
      obtain ⟨a, b⟩ := p
      simp only at hfst hsnd
      subst hfst
      rw [hsnd]
    rw [hpe]
    exact hp

/-- Witness for C7 at the concrete five-target scenario. -/
theorem claim_C7_witness :
    ∃ s', fetchWithConcurrencyTraced scenarioOp scenarioDur scenarioUrls 2 = some s' ∧
      fetchWithConcurrency scenarioOp scenarioDur scenarioUrls 2
        = some (s'.trace.map Prod.snd) ∧
      ∀ i, i < scenarioUrls.length →
        (i, outcomeOf scenarioOp scenarioUrls i) ∈ s'.trace :=
  claim_C7_always_resolves scenarioOp scenarioDur scenarioUrls 2

/-- Counterexample to claim C6: `fetchWithConcurrency` performs no validation
of `limit`.  Invoked with `limit = 0` on two targets it raises no
configuration error and does not fail fast: both targets are admitted (two
start events are recorded) and the run resolves normally with one outcome
per target. -/
theorem claim_C6_counterexample :
    fetchWithConcurrency (fun _ _ => .success "x") (fun _ => 1) ["A", "B"] 0
      = some [.fulfilled "x", .fulfilled "x"] ∧
    fetchWithConcurrencyTraced (fun _ _ => .success "x") (fun _ => 1) ["A", "B"] 0
      = some { time := 2, executing := [],
               trace := [(0, .fulfilled "x"), (1, .fulfilled "x")],
               starts := [(0, 0), (1, 1)], occupancies := [1, 1] } :=
  ⟨rfl, rfl⟩

/-- Claim C6 as amended: invoking the dispatcher with `concurrencyLimit = 0`
(the source has no validation, so a value `< 1` is simply used in the
`executing.length >= limit` comparison) raises no configuration error and
never hangs: every target is still admitted, in input order, and the run
resolves with exactly one outcome per target. -/
theorem claim_C6_amended (op : Nat → Nat → FetchResult) (dur : Nat → Nat)
    (urls : List String) :
    ∃ s', fetchWithConcurrencyTraced op dur urls 0 = some s' ∧
      s'.starts.map Prod.fst = List.range urls.length ∧
      fetchWithConcurrency op dur urls 0 = some (s'.trace.map Prod.snd) ∧
      (s'.trace.map Prod.snd).length = urls.length := by
  obtain ⟨s', hsome, _, hperm, _, hstarts⟩ := traced_spec op dur urls 0
  refine ⟨s', hsome, hstarts, ?_, ?_⟩
  · unfold fetchWithConcurrency
    rw [hsome]
    rfl
  · have := hperm.length_eq
    simpa using this

/-- Witness for the amended C6 at a concrete two-target run. -/
theorem claim_C6_amended_witness :
    ∃ s', fetchWithConcurrencyTraced (fun _ _ => .success "x") (fun _ => 1)
        ["A", "B"] 0 = some s' ∧
      s'.starts.map Prod.fst = List.range (["A", "B"] : List String).length ∧
      fetchWithConcurrency (fun _ _ => .success "x") (fun _ => 1) ["A", "B"] 0
        = some (s'.trace.map Prod.snd) ∧
      (s'.trace.map Prod.snd).length = (["A", "B"] : List String).length :=
  claim_C6_amended (fun _ _ => .success "x") (fun _ => 1) ["A", "B"]

/-- Claim C8: the concrete scenario — targets `[A, B, C, D, E]`,
`concurrencyLimit = 2`, settlement latencies `5, 3, 4, 6, 2`, target `C`
failing permanently.  The admission controller starts targets in input order
(`starts` lists indices `0 1 2 3 4` in order): `A` and `B` start immediately
(both at time 0), `C` starts only at time 3 — the instant the faster of
`A`/`B` (here `B`, latency 3) settles — `D` at `A`'s settlement (time 5),
`E` at `C`'s settlement (time 7); all five settle, and the final `results`
array has exactly 5 entries, in completion order, each tagged fulfilled or
rejected. -/
theorem claim_C8_admission_order :
    fetchWithConcurrencyTraced scenarioOp scenarioDur scenarioUrls 2 =
      some { time := 11, executing := [],
             trace := [(1, .fulfilled "data-B"), (0, .fulfilled "data-A"),
                       (2, .rejected "❌ Final Failure for C: 404 Not Found"),
                       (4, .fulfilled "data-E"), (3, .fulfilled "data-D")],
             starts := [(0, 0), (1, 0), (2, 3), (3, 5), (4, 7)],
             occupancies := [1, 2, 2, 2, 2] } :=
  rfl

/-- Counterexample to claim C9: outcomes stored in `results` carry no index
or key.  With two distinct targets whose operations return the same value,
the two fulfilled entries of the resolved array are identical, so no
information in the ResultSet maps an entry back to its originating target. -/
theorem claim_C9_counterexample :
    fetchWithConcurrency (fun _ _ => .success "same") (fun _ => 1) ["A", "B"] 2
      = some [.fulfilled "same", .fulfilled "same"] ∧
    ("A" : String) ≠ "B" :=
  ⟨rfl, by decide⟩

/-- Claim C9 as amended: a rejected outcome can be mapped back to its
originating target because the recorded reason is the final-failure wrapper,
which embeds the target identifier; a fulfilled outcome carries only the
operation's returned value, with no stored index or key, so it identifies
its target only insofar as that value happens to encode it. -/
theorem claim_C9_amended (op : Nat → Nat → FetchResult) (dur : Nat → Nat)
    (urls : List String) (limit : Nat) :
    ∃ s', fetchWithConcurrencyTraced op dur urls limit = some s' ∧
      ∀ p ∈ s'.trace, ∀ r, p.2 = .rejected r →
        strIncludes r (urls.getD p.1 "") = true := by
  obtain ⟨s', hsome, _, _, hok, _⟩ := traced_spec op dur urls limit
  refine ⟨s', hsome, ?_⟩
  intro p hp r hr
  have hout : outcomeOf op urls p.1 = .rejected r := by
    rw [← hok p hp]
    exact hr
  obtain ⟨m, hm⟩ := outcomeOf_rejected op urls p.1 r hout
  rw [hm]
  exact finalFailureMsg_includes_url _ _

/-- Witness for the amended C9 at the concrete five-target scenario (in
which target `C` is rejected). -/
theorem claim_C9_amended_witness :
    ∃ s', fetchWithConcurrencyTraced scenarioOp scenarioDur scenarioUrls 2 = some s' ∧
      ∀ p ∈ s'.trace, ∀ r, p.2 = .rejected r →
        strIncludes r (scenarioUrls.getD p.1 "") = true :=
  claim_C9_amended scenarioOp scenarioDur scenarioUrls 2

/-- Claim C10: with `concurrencyLimit = 0` (and likewise any value below 1)
`fetchWithConcurrency` does not deadlock.  Each promise is pushed into
`executing` before the capacity check, so the awaited race always has a
non-empty array; execution degenerates to waiting for each just-started
operation before admitting the next (the occupancy snapshot is 1 at every
admission, and the settlement trace is exactly the targets in input order),
and the run still resolves with one outcome per target. -/
theorem claim_C10_limit_zero_sequential (op : Nat → Nat → FetchResult)
    (dur : Nat → Nat) (urls : List String) :
    ∃ s', fetchWithConcurrencyTraced op dur urls 0 = some s' ∧
      s'.trace = (List.range urls.length).map (fun i => (i, outcomeOf op urls i)) ∧
      s'.occupancies = List.replicate urls.length 1 ∧
      fetchWithConcurrency op dur urls 0
        = some ((List.range urls.length).map (outcomeOf op urls)) := by
  obtain ⟨s', h', he', ht', ho', _⟩ :=
    admitAll_zero (outcomeOf op urls) dur (List.range urls.length) initState rfl
  have hlen : s'.executing.length = 0 := by rw [he']; rfl
  have htr : fetchWithConcurrencyTraced op dur urls 0 = some s' := by
    unfold fetchWithConcurrencyTraced
    rw [h']
    show some (drainAll (outcomeOf op urls) s'.executing.length s') = some s'
    rw [hlen, drainAll]
  refine ⟨s', htr, ?_, ?_, ?_⟩
  · rw [ht']
    simp [initState]
  · rw [ho']
    simp [initState]
  · unfold fetchWithConcurrency
    rw [htr]
    simp [ht', initState, List.map_map, Function.comp]
